import Mathlib

/-!
Shallow embedding of the merch_store transactional core.

The database state (schema `content` from internal/storage/migrations/init.sql)
is modelled as four list-backed tables.  SQL statements are modelled as pure
functions on that state; a statement that violates a table constraint
(CHECK, UNIQUE, FOREIGN KEY) fails with the corresponding error, exactly as
PostgreSQL raises it and as the Go code receives it.  The Go functions of
internal/storage/postgresql.go run each transactional operation as a unit of
work: every error path returns the original database (the deferred
`tx.Rollback()`), the success path returns the transaction's final state
(`tx.Commit()`).  The app layer (internal/app/app.go) is embedded on top.
Serial executions only are modelled; bcrypt and JWT signing (external
libraries) are abstracted by injective string functions.
-/

namespace MerchStore

/-- A row of `content.users` (id SERIAL, username UNIQUE, password_hash,
coins INTEGER CHECK (coins >= 0)). -/
structure UserRow where
  id : Int
  username : String
  passwordHash : String
  coins : Int
  deriving DecidableEq

/-- A row of `content.merch` (id SERIAL, merch_name UNIQUE, price CHECK (price > 0)). -/
structure MerchRow where
  id : Int
  merchName : String
  price : Int
  deriving DecidableEq

/-- A row of `content.merch_purchases` (user_id, merch_id, quantity CHECK (quantity > 0)). -/
structure PurchaseRow where
  userId : Int
  merchId : Int
  quantity : Int
  deriving DecidableEq

/-- A row of `content.coin_transfers` (from_user_id, to_user_id,
amount CHECK (amount > 0), CHECK (from_user_id <> to_user_id)). -/
structure TransferRow where
  fromUserId : Int
  toUserId : Int
  amount : Int
  deriving DecidableEq

/-- The database state: the four tables of schema `content`. -/
structure DB where
  users : List UserRow
  merch : List MerchRow
  merchPurchases : List PurchaseRow
  coinTransfers : List TransferRow
  deriving DecidableEq

/-- Errors surfaced to the Go code: `sql.ErrNoRows`, PostgreSQL constraint
violations (carrying the constraint name, as inspected by the handlers in
internal/service), the app-layer validation errors of internal/app/app.go,
the bcrypt mismatch error, and the spec's `InsufficientFunds` (used only by
the spec-side model of `ApplyDelta`). -/
inductive Err where
  | errNoRows
  | checkViolation (constraintName : String)
  | uniqueViolation (constraintName : String)
  | fkViolation (constraintName : String)
  | missingUsernameOrPassword
  | missingUsernameOrAmount
  | wrongPassword
  | insufficientFunds
  deriving DecidableEq

/-- Model of bcrypt hashing (package internal/pkg/security wraps
`bcrypt.GenerateFromPassword`); abstracted as an injective tagging function. -/
def HashPassword (password : String) : String := "bcrypt$" ++ password

/-- Model of `security.CheckPassword`: compares a stored hash with the hash of
the presented password (`bcrypt.CompareHashAndPassword`). -/
def CheckPassword (hashedPassword userPassword : String) : Bool :=
  hashedPassword == HashPassword userPassword

/-- Model of `auth.GenerateToken` (JWT signing, always succeeds). -/
def GenerateToken (userID : Int) : String := "jwt$" ++ toString userID

/-- The next value of the `content.users` id sequence (SERIAL). -/
def nextUserId (db : DB) : Int :=
  (db.users.foldr (fun u m => max u.id m) 0) + 1

/-- The next value of the `content.merch` id sequence (SERIAL). -/
def nextMerchId (db : DB) : Int :=
  (db.merch.foldr (fun m acc => max m.id acc) 0) + 1

/-- Effect of `updateUserCoinsQuery` on one row: a row matching the id gets
`coins + delta`, any other row is untouched. -/
def applyCoinsDelta (delta uid : Int) (u : UserRow) : UserRow :=
  if u.id == uid then { u with coins := u.coins + delta } else u

/-- The SQL statement `updateUserCoinsQuery`:
`UPDATE content.users SET coins = coins + $1, updated_at = NOW() WHERE id = $2`.
Every row matching the id gets `coins + delta`; the statement fails with the
`users_coins_check` CHECK violation when an updated row would hold negative
coins. -/
def sqlUpdateCoins (db : DB) (delta : Int) (uid : Int) : Except Err DB :=
  if db.users.any (fun u => u.id == uid && u.coins + delta < 0) then
    .error (.checkViolation "users_coins_check")
  else
    .ok { db with users := db.users.map (applyCoinsDelta delta uid) }

/-- Number of rows the `updateUserCoinsQuery` statement reports as affected
(`result.RowsAffected()`): the rows matching the id. -/
def updateCoinsRowsAffected (db : DB) (uid : Int) : Nat :=
  (db.users.filter (fun u => u.id == uid)).length

/-- Go `(*PostgreSQL).UpdateUserCoins`: executes `updateUserCoinsQuery` and
returns its error, if any.  The affected-row count is read but never
inspected: zero rows affected is a success. -/
def UpdateUserCoins (db : DB) (userID : Int) (coins : Int) : Except Err DB :=
  sqlUpdateCoins db coins userID

/-- Go `(*PostgreSQL).GetUserID` (`getUserIDQuery`): first row of
`SELECT id FROM content.users WHERE username = $1`, or `sql.ErrNoRows`. -/
def GetUserID (db : DB) (username : String) : Except Err Int :=
  match db.users.find? (fun u => u.username == username) with
  | some u => .ok u.id
  | none => .error .errNoRows

/-- Go `(*PostgreSQL).GetItemPrice` (`getItemPriceQuery`): first row of
`SELECT id, price FROM content.merch WHERE merch_name = $1`, or `sql.ErrNoRows`. -/
def GetItemPrice (db : DB) (itemName : String) : Except Err MerchRow :=
  match db.merch.find? (fun m => m.merchName == itemName) with
  | some m => .ok m
  | none => .error .errNoRows

/-- The SQL statement `transferCoinsQuery`:
`INSERT INTO content.coin_transfers (from_user_id, to_user_id, amount) VALUES ($1, $2, $3)`,
subject to the table's CHECK constraints (`amount > 0`, `chk_different_users`)
and foreign keys into `content.users`. -/
def sqlInsertTransfer (db : DB) (fromId toId amount : Int) : Except Err DB :=
  if amount ≤ 0 then .error (.checkViolation "coin_transfers_amount_check")
  else if fromId == toId then .error (.checkViolation "chk_different_users")
  else if !(db.users.any (fun u => u.id == fromId)) then .error (.fkViolation "fk_from_user")
  else if !(db.users.any (fun u => u.id == toId)) then .error (.fkViolation "fk_to_user")
  else .ok { db with coinTransfers := db.coinTransfers ++ [⟨fromId, toId, amount⟩] }

/-- The SQL statement `buyItemQuery`:
`INSERT INTO content.merch_purchases (user_id, merch_id, quantity) VALUES ($1, $2, $3)`,
subject to `quantity > 0` and the foreign keys into users and merch. -/
def sqlInsertPurchase (db : DB) (uid mid qty : Int) : Except Err DB :=
  if qty ≤ 0 then .error (.checkViolation "merch_purchases_quantity_check")
  else if !(db.users.any (fun u => u.id == uid)) then .error (.fkViolation "fk_user_purchase")
  else if !(db.merch.any (fun m => m.id == mid)) then .error (.fkViolation "fk_merch_purchase")
  else .ok { db with merchPurchases := db.merchPurchases ++ [⟨uid, mid, qty⟩] }

/-- Go `(*PostgreSQL).BuyItem`: one unit of work.  Looks up the item price,
debits the buyer by the price via `UpdateUserCoins`, inserts one purchase
record with quantity 1, and commits; any error rolls the transaction back,
returning the error and the unchanged database. -/
def BuyItem (db : DB) (userID : Int) (itemName : String) : Option Err × DB :=
  match GetItemPrice db itemName with
  | .error e => (some e, db)
  | .ok item =>
    match UpdateUserCoins db userID (-item.price) with
    | .error e => (some e, db)
    | .ok db1 =>
      match sqlInsertPurchase db1 userID item.id 1 with
      | .error e => (some e, db)
      | .ok db2 => (none, db2)

/-- The `sendCoin` request body (models.SendCoinRequest). -/
structure SendCoinRequest where
  toUser : String
  amount : Int
  deriving DecidableEq

/-- Go `(*PostgreSQL).TransferCoins`: one unit of work.  Debits the sender by
the amount, resolves the receiver's id from the username, credits the
receiver, inserts one transfer record, and commits; any error rolls back,
returning the error and the unchanged database. -/
def TransferCoins (db : DB) (userID : Int) (req : SendCoinRequest) : Option Err × DB :=
  match UpdateUserCoins db userID (-req.amount) with
  | .error e => (some e, db)
  | .ok db1 =>
    match GetUserID db1 req.toUser with
    | .error e => (some e, db)
    | .ok toId =>
      match UpdateUserCoins db1 toId req.amount with
      | .error e => (some e, db)
      | .ok db2 =>
        match sqlInsertTransfer db2 userID toId req.amount with
        | .error e => (some e, db)
        | .ok db3 => (none, db3)

/-- A user value as carried by the Go code (models.User). -/
structure User where
  id : Int
  username : String
  password : String
  coins : Int
  deriving DecidableEq

/-- Go `(*PostgreSQL).CheckUser` (`checkUserQuery`): looks the username up; on
`sql.ErrNoRows` returns the user unchanged (ID stays 0) with no error;
otherwise scans the stored id and hash and checks the presented password. -/
def CheckUser (db : DB) (user : User) : Except Err User :=
  match db.users.find? (fun u => u.username == user.username) with
  | none => .ok user
  | some row =>
    if CheckPassword row.passwordHash user.password then .ok { user with id := row.id }
    else .error .wrongPassword

/-- Go `(*PostgreSQL).CreateUser` (`createUserQuery`): hashes the password and
inserts the user row, subject to the username UNIQUE constraint and the coins
CHECK constraint; returns the user with the freshly assigned serial id. -/
def CreateUser (db : DB) (user : User) : Except Err (User × DB) :=
  if db.users.any (fun u => u.username == user.username) then
    .error (.uniqueViolation "users_username_key")
  else if user.coins < 0 then
    .error (.checkViolation "users_coins_check")
  else
    .ok ({ user with id := nextUserId db },
         { db with users := db.users ++
            [⟨nextUserId db, user.username, HashPassword user.password, user.coins⟩] })

/-- The `auth` request body (models.AuthRequest). -/
structure AuthRequest where
  username : String
  password : String
  deriving DecidableEq

/-- Go `(*App).ProcessAuth`: rejects blank credentials, looks the user up, and
if the id came back 0 creates the account with 1000 coins; returns a token for
the id.  The returned database reflects any account creation. -/
def ProcessAuth (db : DB) (req : AuthRequest) : Except Err (String × DB) :=
  if req.username == "" || req.password == "" then .error .missingUsernameOrPassword
  else
    match CheckUser db ⟨0, req.username, req.password, 0⟩ with
    | .error e => .error e
    | .ok user =>
      if user.id == 0 then
        match CreateUser db { user with coins := 1000 } with
        | .error e => .error e
        | .ok (user2, db2) => .ok (GenerateToken user2.id, db2)
      else .ok (GenerateToken user.id, db)

/-- Go `(*App).ProcessBuy`: delegates to `BuyItem`. -/
def ProcessBuy (db : DB) (userID : Int) (itemName : String) : Option Err × DB :=
  BuyItem db userID itemName

/-- Go `(*App).ProcessSendCoin`: rejects an empty recipient or an amount equal
to 0 with `ErrMissingUsernameOrAmount` before touching storage; otherwise
delegates to `TransferCoins`. -/
def ProcessSendCoin (db : DB) (userID : Int) (req : SendCoinRequest) : Option Err × DB :=
  if req.toUser == "" || req.amount == 0 then (some .missingUsernameOrAmount, db)
  else TransferCoins db userID req

/-- The catalog starter set inserted by init.sql. -/
def seedItems : List (String × Int) :=
  [("t-shirt", 80), ("cup", 20), ("book", 50), ("pen", 10), ("powerbank", 200),
   ("hoody", 300), ("umbrella", 200), ("socks", 10), ("wallet", 50), ("pink-hoody", 500)]

/-- One row of the seeding statement: `INSERT INTO content.merch ... ON CONFLICT
(merch_name) DO NOTHING` — the insert is skipped when the name already exists. -/
def seedInsertMerch (db : DB) (name : String) (price : Int) : DB :=
  if db.merch.any (fun m => m.merchName == name) then db
  else { db with merch := db.merch ++ [⟨nextMerchId db, name, price⟩] }

/-- The whole catalog seed of init.sql applied to a database state. -/
def seedCatalog (db : DB) : DB :=
  seedItems.foldl (fun d it => seedInsertMerch d it.1 it.2) db

/-- The empty database right after `CREATE TABLE` and before seeding. -/
def emptyDB : DB := ⟨[], [], [], []⟩

/-- The database produced by running init.sql once. -/
def initDB : DB := seedCatalog emptyDB

/-- Spec-side model of `ApplyDelta` as §4.1 words it: a single conditional
update `UPDATE ... SET balance = balance + delta WHERE id = ? AND
balance + delta >= 0`, treating zero rows affected as `InsufficientFunds`.
Kept only to compare against the source's `UpdateUserCoins`. -/
def ApplyDelta_specModel (db : DB) (uid : Int) (delta : Int) : Except Err DB :=
  let affected := db.users.filter (fun u => u.id == uid && 0 ≤ u.coins + delta)
  if affected.length == 0 then .error .insufficientFunds
  else
    .ok { db with
          users := db.users.map (fun u =>
            if u.id == uid && 0 ≤ u.coins + delta then { u with coins := u.coins + delta } else u) }

/-- Balance of the (first) `content.users` row with the given id, if any. -/
def coinsOf (db : DB) (uid : Int) : Option Int :=
  (db.users.find? (fun u => u.id == uid)).map (fun u => u.coins)

/-- Rows of `content.merch` carrying the given name. -/
def merchNameCount (db : DB) (name : String) : Nat :=
  (db.merch.filter (fun m => m.merchName == name)).length

/-- A one-user state: alice (id 1) holding 100 coins. -/
def dbAlice : DB := ⟨[⟨1, "alice", "h", 100⟩], [], [], []⟩

/-- A two-user state: alice (id 1) and bob (id 2), 1000 coins each. -/
def dbAliceBob : DB := ⟨[⟨1, "alice", "h1", 1000⟩, ⟨2, "bob", "h2", 1000⟩], [], [], []⟩

theorem applyCoinsDelta_id (delta uid : Int) (u : UserRow) :
    (applyCoinsDelta delta uid u).id = u.id := by
  unfold applyCoinsDelta
  split <;> rfl

theorem applyCoinsDelta_username (delta uid : Int) (u : UserRow) :
    (applyCoinsDelta delta uid u).username = u.username := by
  unfold applyCoinsDelta
  split <;> rfl

theorem applyCoinsDelta_passwordHash (delta uid : Int) (u : UserRow) :
    (applyCoinsDelta delta uid u).passwordHash = u.passwordHash := by
  unfold applyCoinsDelta
  split <;> rfl

theorem find_map_pres {α : Type} (f : α → α) (p : α → Bool)
    (hp : ∀ a, p (f a) = p a) (l : List α) :
    (l.map f).find? p = (l.find? p).map f := by
  have hpf : (p ∘ f) = p := funext hp
  rw [List.find?_map, hpf]

theorem any_map_pres {α : Type} (f : α → α) (p : α → Bool)
    (hp : ∀ a, p (f a) = p a) (l : List α) :
    (l.map f).any p = l.any p := by
  have hpf : (p ∘ f) = p := funext hp
  rw [List.any_map, hpf]

theorem sqlUpdateCoins_ok_iff {db db' : DB} {delta uid : Int} :
    sqlUpdateCoins db delta uid = Except.ok db' ↔
      ((∀ u ∈ db.users, u.id = uid → 0 ≤ u.coins + delta) ∧
        db' = { db with users := db.users.map (applyCoinsDelta delta uid) }) := by
  unfold sqlUpdateCoins
  by_cases h : db.users.any (fun u => u.id == uid && u.coins + delta < 0)
  · rw [if_pos h]
    simp only [List.any_eq_true, Bool.and_eq_true, beq_iff_eq, decide_eq_true_eq] at h
    obtain ⟨u, hu, hid, hneg⟩ := h
    constructor
    · intro he
      exact Except.noConfusion he
    · rintro ⟨hall, -⟩
      exact absurd (hall u hu hid) (by omega)
  · rw [if_neg h]
    have hall : ∀ u ∈ db.users, u.id = uid → 0 ≤ u.coins + delta := by
      intro u hu hid
      by_contra hneg
      exact h (List.any_eq_true.mpr ⟨u, hu, by simp [hid]; omega⟩)
    constructor
    · intro he
      injection he with he
      exact ⟨hall, he.symm⟩
    · rintro ⟨-, rfl⟩
      rfl

/-- C1, counterexample: `UpdateUserCoins` does not treat zero affected rows as
a failure.  In a state holding only user 1, updating the coins of the absent
user 2 by −50 affects zero rows and returns success, while the spec's
conditional-update `ApplyDelta` would fail with `InsufficientFunds`. -/
theorem updateUserCoins_missing_user_succeeds :
    updateCoinsRowsAffected dbAlice 2 = 0 ∧
    UpdateUserCoins dbAlice 2 (-50) = Except.ok dbAlice ∧
    ApplyDelta_specModel dbAlice 2 (-50) = Except.error Err.insufficientFunds :=
  ⟨rfl, rfl, rfl⟩

/-- C1 (amended): when a row matching the id would end up with negative coins,
the single `UPDATE` statement of `UpdateUserCoins` fails atomically with the
`users_coins_check` CHECK violation (surfaced by the handlers as insufficient
funds); the guard is the database constraint, not a conditional `WHERE` clause,
and zero affected rows is not an error. -/
theorem updateUserCoins_negative_result_fails (db : DB) (uid delta : Int) (u : UserRow)
    (hu : u ∈ db.users) (hid : u.id = uid) (hneg : u.coins + delta < 0) :
    UpdateUserCoins db uid delta = Except.error (Err.checkViolation "users_coins_check") := by
  unfold UpdateUserCoins sqlUpdateCoins
  rw [if_pos (List.any_eq_true.mpr ⟨u, hu, by simp [hid]; omega⟩)]

/-- Instance of `updateUserCoins_negative_result_fails` at a concrete state:
debiting 200 from alice's 100 coins fails with the CHECK violation. -/
theorem updateUserCoins_negative_result_fails_inst :
    UpdateUserCoins dbAlice 1 (-200) = Except.error (Err.checkViolation "users_coins_check") :=
  updateUserCoins_negative_result_fails dbAlice 1 (-200) ⟨1, "alice", "h", 100⟩
    (by decide) rfl (by decide)

/-- C4: if `BuyItem` fails at any step (unknown item, coins CHECK violation,
purchase-record insert failure), the returned state is the original database:
the deferred rollback leaves no partial effect. -/
theorem buyItem_failure_rolls_back (db : DB) (userID : Int) (itemName : String) (e : Err)
    (h : (BuyItem db userID itemName).1 = some e) :
    (BuyItem db userID itemName).2 = db := by
  unfold BuyItem at h ⊢
  cases h1 : GetItemPrice db itemName with
  | error e1 => simp only [h1]
  | ok item =>
    simp only [h1] at h ⊢
    cases h2 : UpdateUserCoins db userID (-item.price) with
    | error e2 => simp only [h2]
    | ok db1 =>
      simp only [h2] at h ⊢
      cases h3 : sqlInsertPurchase db1 userID item.id 1 with
      | error e3 => simp only [h3]
      | ok db2 =>
        simp only [h3] at h
        exact absurd h (by simp)

/-- Instance of `buyItem_failure_rolls_back`: buying an item absent from the
catalog fails and leaves the empty database unchanged. -/
theorem buyItem_failure_rolls_back_inst :
    (BuyItem emptyDB 1 "t-shirt").2 = emptyDB :=
  buyItem_failure_rolls_back emptyDB 1 "t-shirt" Err.errNoRows rfl

/-- C6, counterexample: a transfer request with the strictly negative amount −5
passes `ProcessSendCoin`'s validation (which only rejects amount = 0), reaches
storage, and fails there with the `coin_transfers_amount_check` CHECK
violation — not with the app-level validation error. -/
theorem processSendCoin_negative_amount_reaches_storage :
    ProcessSendCoin dbAliceBob 1 ⟨"bob", -5⟩ =
      (some (Err.checkViolation "coin_transfers_amount_check"), dbAliceBob) ∧
    Err.checkViolation "coin_transfers_amount_check" ≠ Err.missingUsernameOrAmount :=
  ⟨rfl, by decide⟩

/-- C6 (amended): `ProcessSendCoin` rejects an empty recipient or an amount
equal to 0 with `ErrMissingUsernameOrAmount` before touching storage, the
database unchanged; strictly negative amounts are not caught by this
validation. -/
theorem processSendCoin_validation_rejects (db : DB) (userID : Int) (req : SendCoinRequest)
    (h : req.toUser = "" ∨ req.amount = 0) :
    ProcessSendCoin db userID req = (some Err.missingUsernameOrAmount, db) := by
  unfold ProcessSendCoin
  rcases h with h | h <;> rw [if_pos (by simp [h])]

/-- Instance of `processSendCoin_validation_rejects` at a concrete state:
an empty recipient is rejected with the validation error. -/
theorem processSendCoin_validation_rejects_inst :
    ProcessSendCoin dbAlice 1 ⟨"", 5⟩ = (some Err.missingUsernameOrAmount, dbAlice) :=
  processSendCoin_validation_rejects dbAlice 1 ⟨"", 5⟩ (Or.inl rfl)

theorem getUserID_update {db db' : DB} (delta uid : Int)
    (h : db'.users = db.users.map (applyCoinsDelta delta uid)) (t : String) :
    GetUserID db' t = GetUserID db t := by
  unfold GetUserID
  rw [h, find_map_pres (applyCoinsDelta delta uid) (fun u => u.username == t)
        (fun a => by simp only [applyCoinsDelta_username]) db.users]
  cases db.users.find? (fun u => u.username == t) with
  | none => rfl
  | some u => simp [applyCoinsDelta_id]

theorem sqlInsertTransfer_self (db : DB) (x a : Int) :
    ∃ e, sqlInsertTransfer db x x a = Except.error e := by
  unfold sqlInsertTransfer
  by_cases ha : a ≤ 0
  · exact ⟨_, by rw [if_pos ha]⟩
  · refine ⟨Err.checkViolation "chk_different_users", ?_⟩
    rw [if_neg ha, if_pos (by simp)]

/-- C5, counterexample: a self-transfer whose amount exceeds the balance does
not fail with the self-transfer rejection: the debit fails first with the
`users_coins_check` CHECK violation (alice holds 100 and sends herself 500),
so the failure the claim names never surfaces on this input. -/
theorem self_transfer_not_always_chk_different_users :
    (TransferCoins dbAlice 1 ⟨"alice", 500⟩).1 = some (Err.checkViolation "users_coins_check") ∧
    Err.checkViolation "users_coins_check" ≠ Err.checkViolation "chk_different_users" :=
  ⟨rfl, by decide⟩

/-- C5 (amended): a transfer whose recipient username resolves to the sender
itself always fails and rolls back to the unchanged database; the rejection
comes from the database constraints (the `chk_different_users` CHECK on the
record insert, or a coins/amount CHECK earlier), the engine itself performing
no self-transfer check. -/
theorem self_transfer_always_fails_unchanged (db : DB) (uid : Int) (req : SendCoinRequest)
    (hres : GetUserID db req.toUser = Except.ok uid) :
    (TransferCoins db uid req).1.isSome = true ∧ (TransferCoins db uid req).2 = db := by
  unfold TransferCoins
  cases h1 : UpdateUserCoins db uid (-req.amount) with
  | error e => simp only [h1]; simp
  | ok db1 =>
    unfold UpdateUserCoins at h1
    have husers : db1.users = db.users.map (applyCoinsDelta (-req.amount) uid) := by
      rw [(sqlUpdateCoins_ok_iff.mp h1).2]
    have h2 : GetUserID db1 req.toUser = Except.ok uid := by
      rw [getUserID_update (-req.amount) uid husers, hres]
    simp only [UpdateUserCoins, h1, h2]
    cases h3 : UpdateUserCoins db1 uid req.amount with
    | error e => simp only [UpdateUserCoins] at h3; simp only [h3]; simp
    | ok db2 =>
      obtain ⟨e, h4⟩ := sqlInsertTransfer_self db2 uid req.amount
      simp only [UpdateUserCoins] at h3
      simp only [h3, h4]
      simp

/-- Instance of `self_transfer_always_fails_unchanged`: alice transferring 50
coins to "alice" fails and leaves the state unchanged. -/
theorem self_transfer_always_fails_unchanged_inst :
    (TransferCoins dbAlice 1 ⟨"alice", 50⟩).1.isSome = true ∧
      (TransferCoins dbAlice 1 ⟨"alice", 50⟩).2 = dbAlice :=
  self_transfer_always_fails_unchanged dbAlice 1 ⟨"alice", 50⟩ rfl

/-- C7, counterexample: a transfer to the nonexistent username "ghost" does not
fail with the unknown-recipient error when the sender lacks the funds: the
debit runs first and fails with the `users_coins_check` CHECK violation (alice
holds 100 and sends 500), so the failure is not `sql.ErrNoRows`. -/
theorem transfer_unknown_recipient_after_debit :
    (TransferCoins dbAlice 1 ⟨"ghost", 500⟩).1 = some (Err.checkViolation "users_coins_check") ∧
    Err.checkViolation "users_coins_check" ≠ Err.errNoRows :=
  ⟨rfl, by decide⟩

/-- C7 (amended): the sender's debit is applied before the receiver is
resolved; when the recipient username is absent and the debit goes through
(every row matching the sender keeps a non-negative balance), the transfer
fails with `sql.ErrNoRows` and rolls back to the unchanged database. -/
theorem transfer_unknown_recipient_noRows (db : DB) (uid : Int) (req : SendCoinRequest)
    (habs : db.users.find? (fun u => u.username == req.toUser) = none)
    (hfunds : ∀ u ∈ db.users, u.id = uid → 0 ≤ u.coins - req.amount) :
    TransferCoins db uid req = (some Err.errNoRows, db) := by
  have h1 : UpdateUserCoins db uid (-req.amount) =
      Except.ok { db with users := db.users.map (applyCoinsDelta (-req.amount) uid) } := by
    unfold UpdateUserCoins
    exact sqlUpdateCoins_ok_iff.mpr ⟨fun u hu hid => by have := hfunds u hu hid; omega, rfl⟩
  have h2 : GetUserID { db with users := db.users.map (applyCoinsDelta (-req.amount) uid) }
      req.toUser = Except.error Err.errNoRows := by
    rw [getUserID_update (-req.amount) uid rfl]
    unfold GetUserID
    rw [habs]
  unfold TransferCoins
  simp only [h1, h2]

/-- Instance of `transfer_unknown_recipient_noRows`: alice (100 coins) sending
50 to the absent "ghost" fails with `sql.ErrNoRows`, state unchanged. -/
theorem transfer_unknown_recipient_noRows_inst :
    TransferCoins dbAlice 1 ⟨"ghost", 50⟩ = (some Err.errNoRows, dbAlice) :=
  transfer_unknown_recipient_noRows dbAlice 1 ⟨"ghost", 50⟩ rfl (by decide)

theorem updateUserCoins_ok_iff {db db' : DB} {uid delta : Int} :
    UpdateUserCoins db uid delta = Except.ok db' ↔
      ((∀ u ∈ db.users, u.id = uid → 0 ≤ u.coins + delta) ∧
        db' = { db with users := db.users.map (applyCoinsDelta delta uid) }) :=
  sqlUpdateCoins_ok_iff

theorem updateUserCoins_nonneg {db db' : DB} {uid delta : Int}
    (h : ∀ u ∈ db.users, 0 ≤ u.coins) (hok : UpdateUserCoins db uid delta = Except.ok db') :
    ∀ u ∈ db'.users, 0 ≤ u.coins := by
  obtain ⟨hall, rfl⟩ := updateUserCoins_ok_iff.mp hok
  intro u hu
  obtain ⟨v, hv, rfl⟩ := List.mem_map.mp hu
  unfold applyCoinsDelta
  split
  next heq => exact hall v hv (by simpa using heq)
  next => exact h v hv

theorem sqlInsertPurchase_users {db db' : DB} {a b c : Int}
    (h : sqlInsertPurchase db a b c = Except.ok db') : db'.users = db.users := by
  unfold sqlInsertPurchase at h
  split_ifs at h <;> first
    | exact Except.noConfusion h
    | (injection h with h; rw [← h])

theorem sqlInsertTransfer_users {db db' : DB} {f t a : Int}
    (h : sqlInsertTransfer db f t a = Except.ok db') : db'.users = db.users := by
  unfold sqlInsertTransfer at h
  split_ifs at h <;> first
    | exact Except.noConfusion h
    | (injection h with h; rw [← h])

theorem buyItem_nonneg {db : DB} (uid : Int) (item : String)
    (h : ∀ u ∈ db.users, 0 ≤ u.coins) :
    ∀ u ∈ (BuyItem db uid item).2.users, 0 ≤ u.coins := by
  unfold BuyItem
  cases h1 : GetItemPrice db item with
  | error e => simp only [h1]; exact h
  | ok it =>
    simp only [h1]
    cases h2 : UpdateUserCoins db uid (-it.price) with
    | error e => simp only [h2]; exact h
    | ok db1 =>
      simp only [h2]
      have hdb1 := updateUserCoins_nonneg h h2
      cases h3 : sqlInsertPurchase db1 uid it.id 1 with
      | error e => simp only [h3]; exact h
      | ok db2 =>
        simp only [h3]
        rw [sqlInsertPurchase_users h3]
        exact hdb1

theorem transferCoins_nonneg {db : DB} (uid : Int) (req : SendCoinRequest)
    (h : ∀ u ∈ db.users, 0 ≤ u.coins) :
    ∀ u ∈ (TransferCoins db uid req).2.users, 0 ≤ u.coins := by
  unfold TransferCoins
  cases h1 : UpdateUserCoins db uid (-req.amount) with
  | error e => simp only [h1]; exact h
  | ok db1 =>
    simp only [h1]
    have hdb1 := updateUserCoins_nonneg h h1
    cases h2 : GetUserID db1 req.toUser with
    | error e => simp only [h2]; exact h
    | ok toId =>
      simp only [h2]
      cases h3 : UpdateUserCoins db1 toId req.amount with
      | error e => simp only [h3]; exact h
      | ok db2 =>
        simp only [h3]
        have hdb2 := updateUserCoins_nonneg hdb1 h3
        cases h4 : sqlInsertTransfer db2 uid toId req.amount with
        | error e => simp only [h4]; exact h
        | ok db3 =>
          simp only [h4]
          rw [sqlInsertTransfer_users h4]
          exact hdb2

theorem processSendCoin_nonneg {db : DB} (uid : Int) (req : SendCoinRequest)
    (h : ∀ u ∈ db.users, 0 ≤ u.coins) :
    ∀ u ∈ (ProcessSendCoin db uid req).2.users, 0 ≤ u.coins := by
  unfold ProcessSendCoin
  split
  · exact h
  · exact transferCoins_nonneg uid req h

theorem processAuth_ok_users {db db' : DB} {req : AuthRequest} {t : String}
    (h : ProcessAuth db req = Except.ok (t, db')) :
    db' = db ∨ ∃ v, db'.users = db.users ++ [v] ∧ v.coins = 1000 := by
  unfold ProcessAuth at h
  by_cases hval : (req.username == "" || req.password == "") = true
  case pos => rw [if_pos hval] at h; exact Except.noConfusion h
  case neg =>
    rw [if_neg hval] at h
    cases hc : CheckUser db ⟨0, req.username, req.password, 0⟩ with
    | error e => rw [hc] at h; exact Except.noConfusion h
    | ok user =>
      simp only [hc] at h
      split at h
      next hid =>
        split at h
        next e hcr => exact Except.noConfusion h
        next user2 db2 hcr =>
          injection h with h
          right
          refine ⟨⟨nextUserId db, user.username, HashPassword user.password, 1000⟩, ?_, rfl⟩
          unfold CreateUser at hcr
          split_ifs at hcr <;> try exact Except.noConfusion hcr
          injection hcr with hcr
          have h2 : db2 = db' := congrArg Prod.snd h
          have h3 : { db with users := db.users ++
              [⟨nextUserId db, user.username, HashPassword user.password, 1000⟩] } = db2 :=
            congrArg Prod.snd hcr
          rw [← h2, ← h3]
      next hid =>
        injection h with h
        exact Or.inl (congrArg Prod.snd h).symm

theorem seedInsertMerch_users (db : DB) (n : String) (p : Int) :
    (seedInsertMerch db n p).users = db.users := by
  unfold seedInsertMerch
  split <;> rfl

theorem seedFold_users (items : List (String × Int)) (db : DB) :
    (items.foldl (fun d it => seedInsertMerch d it.1 it.2) db).users = db.users := by
  induction items generalizing db with
  | nil => rfl
  | cons it rest ih => rw [List.foldl_cons, ih, seedInsertMerch_users]

theorem initDB_users : initDB.users = [] := by
  unfold initDB seedCatalog
  rw [seedFold_users]
  rfl

/-- States reachable from the freshly migrated database via the operations the
service exposes: authentication (which may create an account), purchases, and
coin transfers. -/
inductive Reachable : DB → Prop where
  | init : Reachable initDB
  | auth {db : DB} {req : AuthRequest} {t : String} {db' : DB} :
      Reachable db → ProcessAuth db req = Except.ok (t, db') → Reachable db'
  | buy {db : DB} (uid : Int) (item : String) :
      Reachable db → Reachable (ProcessBuy db uid item).2
  | send {db : DB} (uid : Int) (req : SendCoinRequest) :
      Reachable db → Reachable (ProcessSendCoin db uid req).2

/-- C2: in every state reachable by any sequence of account creations,
purchases and transfers, every account's balance is non-negative. -/
theorem reachable_balances_nonneg (db : DB) (h : Reachable db) :
    ∀ u ∈ db.users, 0 ≤ u.coins := by
  induction h with
  | init =>
    intro u hu
    rw [initDB_users] at hu
    cases hu
  | auth hr hok ih =>
    rcases processAuth_ok_users hok with rfl | ⟨v, hv, hvc⟩
    · exact ih
    · intro u hu
      rw [hv] at hu
      rcases List.mem_append.mp hu with hu | hu
      · exact ih u hu
      · have huv : u = v := by simpa using hu
        rw [huv, hvc]
        omega
  | buy uid item hr ih => exact buyItem_nonneg uid item ih
  | send uid req hr ih => exact processSendCoin_nonneg uid req ih

/-- A state reached by one successful authentication against the migrated
database: carol's account exists with the starting balance. -/
def dbCarol : DB := ⟨[⟨1, "carol", HashPassword "pw", 1000⟩], initDB.merch, [], []⟩

/-- Instance of `reachable_balances_nonneg` at the concrete reachable state
holding carol's freshly created account, read at carol's row. -/
theorem reachable_balances_nonneg_inst :
    0 ≤ (⟨1, "carol", HashPassword "pw", 1000⟩ : UserRow).coins :=
  reachable_balances_nonneg dbCarol
    (Reachable.auth Reachable.init
      (show ProcessAuth initDB ⟨"carol", "pw"⟩ = Except.ok (GenerateToken 1, dbCarol) from rfl))
    ⟨1, "carol", HashPassword "pw", 1000⟩ (List.mem_singleton.mpr rfl)

/-- C10: authenticating with a username absent from the store and a non-empty
password always succeeds: the account is silently created with 1000 coins and
the presented password's hash, and a token for the fresh id is returned —
no not-found or wrong-password failure is possible for an unknown name. -/
theorem processAuth_unknown_user_creates_account (db : DB) (req : AuthRequest)
    (hname : req.username ≠ "") (hpw : req.password ≠ "")
    (habs : db.users.find? (fun u => u.username == req.username) = none) :
    ProcessAuth db req = Except.ok (GenerateToken (nextUserId db),
      { db with users := db.users ++
          [⟨nextUserId db, req.username, HashPassword req.password, 1000⟩] }) := by
  unfold ProcessAuth
  rw [if_neg (by simp [hname, hpw])]
  have hcheck : CheckUser db ⟨0, req.username, req.password, 0⟩ =
      Except.ok ⟨0, req.username, req.password, 0⟩ := by
    unfold CheckUser
    rw [habs]
  have huniq : db.users.any (fun u => u.username == req.username) = false := by
    rw [List.any_eq_false]
    intro u hu
    simpa using List.find?_eq_none.mp habs u hu
  have hcreate : CreateUser db ⟨0, req.username, req.password, 1000⟩ =
      Except.ok (⟨nextUserId db, req.username, req.password, 1000⟩,
        { db with users := db.users ++
            [⟨nextUserId db, req.username, HashPassword req.password, 1000⟩] }) := by
    unfold CreateUser
    rw [if_neg (by simp [huniq]), if_neg (by simp)]
  simp only [hcheck]
  simp [hcreate]

/-- Instance of `processAuth_unknown_user_creates_account`: dave, unknown to
the one-user state, authenticates with a fresh password and gets an account
with 1000 coins and a token. -/
theorem processAuth_unknown_user_creates_account_inst :
    ProcessAuth dbAlice ⟨"dave", "secret"⟩ = Except.ok (GenerateToken (nextUserId dbAlice),
      { dbAlice with users := dbAlice.users ++
          [⟨nextUserId dbAlice, "dave", HashPassword "secret", 1000⟩] }) :=
  processAuth_unknown_user_creates_account dbAlice ⟨"dave", "secret"⟩
    (by decide) (by decide) rfl

theorem sqlInsertTransfer_ok_iff {db db' : DB} {f t a : Int} :
    sqlInsertTransfer db f t a = Except.ok db' ↔
      (0 < a ∧ f ≠ t ∧ (∃ u ∈ db.users, u.id = f) ∧ (∃ u ∈ db.users, u.id = t) ∧
        db' = { db with coinTransfers := db.coinTransfers ++ [⟨f, t, a⟩] }) := by
  unfold sqlInsertTransfer
  constructor
  · intro h
    split_ifs at h with h1 h2 h3 h4 <;> try exact Except.noConfusion h
    injection h with h
    have h3' : db.users.any (fun u => u.id == f) = true := by
      revert h3
      cases db.users.any (fun u => u.id == f) <;> simp
    have h4' : db.users.any (fun u => u.id == t) = true := by
      revert h4
      cases db.users.any (fun u => u.id == t) <;> simp
    refine ⟨by omega, by simpa using h2, ?_, ?_, h.symm⟩
    · simpa using List.any_eq_true.mp h3'
    · simpa using List.any_eq_true.mp h4'
  · rintro ⟨hpos, hne, ⟨u, hu, huid⟩, ⟨w, hw, hwid⟩, rfl⟩
    have hf : db.users.any (fun v => v.id == f) = true :=
      List.any_eq_true.mpr ⟨u, hu, by simp [huid]⟩
    have ht : db.users.any (fun v => v.id == t) = true :=
      List.any_eq_true.mpr ⟨w, hw, by simp [hwid]⟩
    rw [if_neg (by omega), if_neg (by simp [hne]), if_neg (by simp [hf]),
      if_neg (by simp [ht])]

theorem applyCoinsDelta_eq (delta uid : Int) (u : UserRow) (h : u.id = uid) :
    applyCoinsDelta delta uid u = { u with coins := u.coins + delta } := by
  unfold applyCoinsDelta
  rw [if_pos (by simp [h])]

theorem applyCoinsDelta_ne (delta uid : Int) (u : UserRow) (h : u.id ≠ uid) :
    applyCoinsDelta delta uid u = u := by
  unfold applyCoinsDelta
  rw [if_neg (by simp [h])]

theorem find_id_map (delta uid x : Int) (l : List UserRow) :
    (l.map (applyCoinsDelta delta uid)).find? (fun u => u.id == x)
      = (l.find? (fun u => u.id == x)).map (applyCoinsDelta delta uid) :=
  find_map_pres _ _ (fun a => by simp only [applyCoinsDelta_id]) l

/-- The exact shape the claims need: how `coinsOf` reads a state whose user
table is the original one after a debit of the sender and a credit of the
receiver. -/
theorem coinsOf_double_update {db dbF : DB} {amt uid toId : Int}
    (husersF : dbF.users = (db.users.map (applyCoinsDelta (-amt) uid)).map
      (applyCoinsDelta amt toId)) (x : Int) :
    coinsOf dbF x = (db.users.find? (fun u => u.id == x)).map
      (fun u => (applyCoinsDelta amt toId (applyCoinsDelta (-amt) uid u)).coins) := by
  unfold coinsOf
  rw [husersF, find_id_map, find_id_map]
  cases db.users.find? (fun u => u.id == x) with
  | none => rfl
  | some u => rfl

/-- What a successful `TransferCoins db uid req` does to the state, stated
over the embedding: the receiver id resolves from the request's username, the
amount is positive, the sender is debited and the receiver credited by exactly
the amount, every other balance is unchanged, exactly one transfer record is
appended, and the merch and purchase tables are untouched. -/
def transferConservation (db : DB) (uid : Int) (req : SendCoinRequest) : Prop :=
  ∃ toId cFrom cTo,
    GetUserID db req.toUser = Except.ok toId ∧
    toId ≠ uid ∧
    0 < req.amount ∧
    coinsOf db uid = some cFrom ∧
    coinsOf db toId = some cTo ∧
    coinsOf (TransferCoins db uid req).2 uid = some (cFrom - req.amount) ∧
    coinsOf (TransferCoins db uid req).2 toId = some (cTo + req.amount) ∧
    (∀ x, x ≠ uid → x ≠ toId →
      coinsOf (TransferCoins db uid req).2 x = coinsOf db x) ∧
    (TransferCoins db uid req).2.users = db.users.map
      (fun u => applyCoinsDelta req.amount toId (applyCoinsDelta (-req.amount) uid u)) ∧
    (TransferCoins db uid req).2.coinTransfers
      = db.coinTransfers ++ [⟨uid, toId, req.amount⟩] ∧
    (TransferCoins db uid req).2.merch = db.merch ∧
    (TransferCoins db uid req).2.merchPurchases = db.merchPurchases

/-- C3: every successful transfer moves exactly the requested amount from the
sender to the resolved receiver, appends exactly one matching transfer record,
and changes nothing else. -/
theorem transferCoins_success_conservation (db : DB) (uid : Int) (req : SendCoinRequest)
    (hok : (TransferCoins db uid req).1 = none) :
    transferConservation db uid req := by
  unfold transferConservation
  unfold TransferCoins at hok ⊢
  cases h1 : UpdateUserCoins db uid (-req.amount) with
  | error e => simp [h1] at hok
  | ok db1 =>
    cases h2 : GetUserID db1 req.toUser with
    | error e => simp [h1, h2] at hok
    | ok toId =>
      cases h3 : UpdateUserCoins db1 toId req.amount with
      | error e => simp [h1, h2, h3] at hok
      | ok db2 =>
        cases h4 : sqlInsertTransfer db2 uid toId req.amount with
        | error e => simp [h1, h2, h3, h4] at hok
        | ok db3 =>
          simp only [h1, h2, h3, h4]
          obtain ⟨-, hdb1⟩ := updateUserCoins_ok_iff.mp h1
          obtain ⟨-, hdb2⟩ := updateUserCoins_ok_iff.mp h3
          obtain ⟨hpos, hne, hfrom2, hto2, hdb3⟩ := sqlInsertTransfer_ok_iff.mp h4
          have husers1 : db1.users = db.users.map (applyCoinsDelta (-req.amount) uid) := by
            rw [hdb1]
          have husers2 : db2.users = (db.users.map (applyCoinsDelta (-req.amount) uid)).map
              (applyCoinsDelta req.amount toId) := by
            rw [hdb2, husers1]
          have husersF : db3.users = (db.users.map (applyCoinsDelta (-req.amount) uid)).map
              (applyCoinsDelta req.amount toId) := by
            rw [hdb3, husers2]
          have hg : GetUserID db req.toUser = Except.ok toId :=
            (getUserID_update (-req.amount) uid husers1 req.toUser).symm.trans h2
          -- the sender row exists in the original table
          have hfrom : ∃ u ∈ db.users, u.id = uid := by
            obtain ⟨u, hu, huid⟩ := hfrom2
            rw [husers2] at hu
            obtain ⟨v, hv, rfl⟩ := List.mem_map.mp hu
            obtain ⟨w, hw, rfl⟩ := List.mem_map.mp hv
            refine ⟨w, hw, ?_⟩
            rw [applyCoinsDelta_id, applyCoinsDelta_id] at huid
            exact huid
          have hto : ∃ u ∈ db.users, u.id = toId := by
            obtain ⟨u, hu, huid⟩ := hto2
            rw [husers2] at hu
            obtain ⟨v, hv, rfl⟩ := List.mem_map.mp hu
            obtain ⟨w, hw, rfl⟩ := List.mem_map.mp hv
            refine ⟨w, hw, ?_⟩
            rw [applyCoinsDelta_id, applyCoinsDelta_id] at huid
            exact huid
          obtain ⟨uF, huFmem, huFid⟩ := hfrom
          obtain ⟨uT, huTmem, huTid⟩ := hto
          have hfindF : (db.users.find? (fun u => u.id == uid)).isSome :=
            List.find?_isSome.mpr ⟨uF, huFmem, by simp [huFid]⟩
          have hfindT : (db.users.find? (fun u => u.id == toId)).isSome :=
            List.find?_isSome.mpr ⟨uT, huTmem, by simp [huTid]⟩
          obtain ⟨vF, hvF⟩ := Option.isSome_iff_exists.mp hfindF
          obtain ⟨vT, hvT⟩ := Option.isSome_iff_exists.mp hfindT
          have hvFid : vF.id = uid := by simpa using List.find?_some hvF
          have hvTid : vT.id = toId := by simpa using List.find?_some hvT
          refine ⟨toId, vF.coins, vT.coins, hg, Ne.symm hne, hpos, ?_, ?_, ?_, ?_, ?_, ?_, ?_, ?_, ?_⟩
          · unfold coinsOf
            rw [hvF]
            rfl
          · unfold coinsOf
            rw [hvT]
            rfl
          · rw [coinsOf_double_update husersF uid, hvF]
            show some ((applyCoinsDelta req.amount toId
              (applyCoinsDelta (-req.amount) uid vF)).coins) = some (vF.coins - req.amount)
            rw [applyCoinsDelta_eq (-req.amount) uid vF hvFid]
            rw [applyCoinsDelta_ne req.amount toId _ (by show vF.id ≠ toId; rw [hvFid]; exact hne)]
            show some (vF.coins + -req.amount) = some (vF.coins - req.amount)
            rfl
          · rw [coinsOf_double_update husersF toId, hvT]
            show some ((applyCoinsDelta req.amount toId
              (applyCoinsDelta (-req.amount) uid vT)).coins) = some (vT.coins + req.amount)
            rw [applyCoinsDelta_ne (-req.amount) uid vT (by rw [hvTid]; exact Ne.symm hne)]
            rw [applyCoinsDelta_eq req.amount toId vT hvTid]
          · intro x hxu hxt
            rw [coinsOf_double_update husersF x]
            unfold coinsOf
            cases hfx : db.users.find? (fun u => u.id == x) with
            | none => rfl
            | some v =>
              have hvid : v.id = x := by simpa using List.find?_some hfx
              show some ((applyCoinsDelta req.amount toId
                (applyCoinsDelta (-req.amount) uid v)).coins) = some v.coins
              rw [applyCoinsDelta_ne (-req.amount) uid v (by rw [hvid]; exact hxu)]
              rw [applyCoinsDelta_ne req.amount toId v (by rw [hvid]; exact hxt)]
          · rw [husersF, List.map_map]
            rfl
          · rw [hdb3, hdb2, hdb1]
          · rw [hdb3, hdb2, hdb1]
          · rw [hdb3, hdb2, hdb1]

/-- Instance of `transferCoins_success_conservation`: alice (1000) successfully
sends 100 to bob (1000); the conservation conclusions hold at this state. -/
theorem transferCoins_success_conservation_inst :
    transferConservation dbAliceBob 1 ⟨"bob", 100⟩ :=
  transferCoins_success_conservation dbAliceBob 1 ⟨"bob", 100⟩ rfl

/-- Whether a catalog row with the given name exists (the `ON CONFLICT`
arbiter: the `merch_name` UNIQUE index). -/
def containsMerch (db : DB) (n : String) : Bool :=
  db.merch.any (fun m => m.merchName == n)

theorem seedInsertMerch_contains_self (db : DB) (n : String) (p : Int) :
    containsMerch (seedInsertMerch db n p) n = true := by
  unfold containsMerch seedInsertMerch
  split
  next h => exact h
  next h =>
    exact List.any_eq_true.mpr ⟨⟨nextMerchId db, n, p⟩, by simp, by simp⟩

theorem seedInsertMerch_contains_mono (db : DB) (n : String) (p : Int) (m : String)
    (h : containsMerch db m = true) :
    containsMerch (seedInsertMerch db n p) m = true := by
  unfold containsMerch seedInsertMerch
  split
  · exact h
  · obtain ⟨u, hu, hp⟩ := List.any_eq_true.mp h
    exact List.any_eq_true.mpr ⟨u, List.mem_append_left _ hu, hp⟩

theorem seedFold_contains_mono (items : List (String × Int)) (db : DB) (m : String)
    (h : containsMerch db m = true) :
    containsMerch (items.foldl (fun d it => seedInsertMerch d it.1 it.2) db) m = true := by
  induction items generalizing db with
  | nil => exact h
  | cons it rest ih =>
    rw [List.foldl_cons]
    exact ih _ (seedInsertMerch_contains_mono db it.1 it.2 m h)

theorem seedFold_contains (items : List (String × Int)) (db : DB) (n : String) (p : Int)
    (hmem : (n, p) ∈ items) :
    containsMerch (items.foldl (fun d it => seedInsertMerch d it.1 it.2) db) n = true := by
  induction items generalizing db with
  | nil => cases hmem
  | cons it rest ih =>
    rw [List.foldl_cons]
    rcases List.mem_cons.mp hmem with heq | hmem2
    · exact seedFold_contains_mono rest _ n
        (by rw [← heq]; exact seedInsertMerch_contains_self db n p)
    · exact ih _ hmem2

theorem seedFold_fixed (items : List (String × Int)) (db : DB)
    (hall : ∀ np ∈ items, containsMerch db np.1 = true) :
    items.foldl (fun d it => seedInsertMerch d it.1 it.2) db = db := by
  induction items with
  | nil => rfl
  | cons it rest ih =>
    rw [List.foldl_cons]
    have hdb : seedInsertMerch db it.1 it.2 = db := by
      unfold seedInsertMerch
      have hc : (db.merch.any fun m => m.merchName == it.1) = true :=
        hall it (List.mem_cons_self it rest)
      rw [if_pos hc]
    rw [hdb]
    exact ih (fun np hnp => hall np (List.mem_cons_of_mem it hnp))

theorem seedCatalog_seedCatalog (db : DB) :
    seedCatalog (seedCatalog db) = seedCatalog db := by
  unfold seedCatalog
  apply seedFold_fixed
  intro np hnp
  obtain ⟨n, p⟩ := np
  exact seedFold_contains seedItems db n p hnp

theorem merchNameCount_seedInsert_self (db : DB) (n : String) (p : Int)
    (h : merchNameCount db n ≤ 1) :
    merchNameCount (seedInsertMerch db n p) n = 1 := by
  unfold seedInsertMerch
  split
  next hc =>
    obtain ⟨u, hu, hp⟩ := List.any_eq_true.mp hc
    have hpos : 0 < merchNameCount db n := by
      unfold merchNameCount
      exact List.length_pos.mpr (List.ne_nil_of_mem (List.mem_filter.mpr ⟨hu, hp⟩))
    omega
  next hc =>
    have h0 : merchNameCount db n = 0 := by
      unfold merchNameCount
      rw [List.length_eq_zero, List.filter_eq_nil]
      intro m hm hp
      exact hc (List.any_eq_true.mpr ⟨m, hm, hp⟩)
    unfold merchNameCount at h0 ⊢
    show (List.filter (fun m => m.merchName == n) (db.merch ++ [⟨nextMerchId db, n, p⟩])).length = 1
    rw [List.filter_append, List.length_append, h0]
    simp

theorem merchNameCount_seedInsert_other (db : DB) (n : String) (p : Int) (m : String)
    (hnm : n ≠ m) :
    merchNameCount (seedInsertMerch db n p) m = merchNameCount db m := by
  unfold seedInsertMerch
  split
  · rfl
  · unfold merchNameCount
    show (List.filter (fun r => r.merchName == m) (db.merch ++ [⟨nextMerchId db, n, p⟩])).length
      = (List.filter (fun r => r.merchName == m) db.merch).length
    rw [List.filter_append]
    simp [hnm]

theorem merchNameCount_seedInsert_le (db : DB) (n : String) (p : Int) (m : String)
    (h : merchNameCount db m ≤ 1) :
    merchNameCount (seedInsertMerch db n p) m ≤ 1 := by
  by_cases hnm : n = m
  · subst hnm
    rw [merchNameCount_seedInsert_self db n p h]
  · rw [merchNameCount_seedInsert_other db n p m hnm]
    exact h

theorem merchNameCount_seedInsert_one (db : DB) (n : String) (p : Int) (m : String)
    (h : merchNameCount db m = 1) :
    merchNameCount (seedInsertMerch db n p) m = 1 := by
  by_cases hnm : n = m
  · subst hnm
    exact merchNameCount_seedInsert_self db n p (by omega)
  · rw [merchNameCount_seedInsert_other db n p m hnm]
    exact h

theorem seedFold_count_one (items : List (String × Int)) (db : DB) (m : String)
    (h : merchNameCount db m = 1) :
    merchNameCount (items.foldl (fun d it => seedInsertMerch d it.1 it.2) db) m = 1 := by
  induction items generalizing db with
  | nil => exact h
  | cons it rest ih =>
    rw [List.foldl_cons]
    exact ih _ (merchNameCount_seedInsert_one db it.1 it.2 m h)

theorem seedFold_count (items : List (String × Int)) (db : DB) (n : String) (p : Int)
    (h : merchNameCount db n ≤ 1) (hmem : (n, p) ∈ items) :
    merchNameCount (items.foldl (fun d it => seedInsertMerch d it.1 it.2) db) n = 1 := by
  induction items generalizing db with
  | nil => cases hmem
  | cons it rest ih =>
    rw [List.foldl_cons]
    rcases List.mem_cons.mp hmem with heq | hmem2
    · have h1 : merchNameCount (seedInsertMerch db it.1 it.2) n = 1 := by
        rw [← heq]
        exact merchNameCount_seedInsert_self db n p h
      exact seedFold_count_one rest _ n h1
    · exact ih _ (merchNameCount_seedInsert_le db it.1 it.2 n h) hmem2

theorem filter_names_le_one (l : List MerchRow) (n : String)
    (hnd : (l.map (fun m => m.merchName)).Nodup) :
    (l.filter (fun m => m.merchName == n)).length ≤ 1 := by
  induction l with
  | nil => simp
  | cons a rest ih =>
    simp only [List.map_cons, List.nodup_cons] at hnd
    obtain ⟨hna, hnd2⟩ := hnd
    by_cases ha : (a.merchName == n) = true
    · have ha2 : a.merchName = n := by simpa using ha
      have hrest : (rest.filter (fun m => m.merchName == n)).length = 0 := by
        rw [List.length_eq_zero, List.filter_eq_nil]
        intro m hm hp
        apply hna
        rw [List.mem_map]
        refine ⟨m, hm, ?_⟩
        have : m.merchName = n := by simpa using hp
        rw [this, ha2]
      have ha3 : (fun m : MerchRow => m.merchName == n) a = true := ha
      rw [List.filter_cons, if_pos ha3, List.length_cons, hrest]
    · have ha3 : ¬(fun m : MerchRow => m.merchName == n) a = true := ha
      rw [List.filter_cons, if_neg ha3]
      exact ih hnd2

/-- C9: against any state whose catalog names are unique (the `merch_name`
UNIQUE constraint), running the init.sql seed twice is the same as running it
once, and afterwards each of the ten seeded item names occupies exactly one
catalog row: repeated boots create no duplicates. -/
theorem seedCatalog_idempotent_unique (db : DB)
    (hnd : (db.merch.map (fun m => m.merchName)).Nodup) :
    seedCatalog (seedCatalog db) = seedCatalog db ∧
    ∀ n ∈ seedItems.map Prod.fst, merchNameCount (seedCatalog (seedCatalog db)) n = 1 := by
  refine ⟨seedCatalog_seedCatalog db, ?_⟩
  intro n hn
  rw [seedCatalog_seedCatalog db]
  obtain ⟨np, hmem, rfl⟩ := List.mem_map.mp hn
  obtain ⟨n, p⟩ := np
  exact seedFold_count seedItems db n p (filter_names_le_one db.merch n hnd) hmem

/-- Instance of `seedCatalog_idempotent_unique` at the empty database: seeding
the fresh store twice leaves one row per seeded item name. -/
theorem seedCatalog_idempotent_unique_inst :
    seedCatalog (seedCatalog emptyDB) = seedCatalog emptyDB ∧
    ∀ n ∈ seedItems.map Prod.fst, merchNameCount (seedCatalog (seedCatalog emptyDB)) n = 1 :=
  seedCatalog_idempotent_unique emptyDB (by simp [emptyDB])

end MerchStore
